import Mathlib

set_option autoImplicit false

/-!
Shallow embedding of the storage layer of the Thoughts application
(the MemStorage class of the server storage module, together with the
record types of the shared schema module).

Modelling conventions:
- JavaScript Date values are modelled as milliseconds since the Unix
  epoch (Nat).  Methods that call Date constructors receive the current
  time as an explicit first argument named now.  The runtime timezone is
  taken to be UTC, so Date.setHours with arguments 23 59 59 999 maps a
  timestamp to the last millisecond of its UTC day.
- The four JavaScript Map fields of MemStorage are modelled as
  association lists of key-value pairs in insertion order: get returns
  the first binding, set replaces the first binding in place or appends
  a fresh binding at the end, values iterates in list order.  This is
  exactly the observable behaviour of a JavaScript Map, whose keys are
  unique.
- Nullable TypeScript fields are modelled as Option values.  Fields that
  MemStorage always populates with a Date (createdAt of Clinic and
  Thought, editedAt of ThoughtHistory) are modelled as plain Nat, which
  makes the defensive null-coalescing reads of those fields no-ops.
- JavaScript truthiness is modelled explicitly where the source relies
  on it: the empty string, 0, null and undefined are falsy, while every
  array (including the empty array) is truthy.
- Array.prototype.sort with a numeric comparator is, since ES2019, a
  stable sort, and the output of a stable sort under a consistent
  comparator is unique; it is modelled by List.insertionSort under the
  corresponding non-strict descending order, which is stable and is
  computable by the kernel.
- String.toLowerCase and String.trim of JavaScript are modelled by
  jsToLower and jsTrim below, defined by structural recursion over the
  character list of the string; they agree with the JavaScript
  functions on the ASCII inputs considered here.
-/

namespace ThoughtsApp

/-- Record type of the users table of the shared schema. -/
structure User where
  id : Nat
  username : String
  email : String
  password : String
  role : String
  clinicId : Option Nat
  createdAt : Option Nat
deriving DecidableEq

/-- Record type of the clinics table of the shared schema; the
departments column is a nullable text array. -/
structure Clinic where
  id : Nat
  name : String
  url : Option String
  logoUrl : Option String
  departments : Option (List String)
  createdAt : Nat
deriving DecidableEq

/-- Record type of the thoughts table of the shared schema. -/
structure Thought where
  id : Nat
  clinicId : Nat
  title : String
  content : String
  category : String
  department : Option String
  authorId : Nat
  isDeleted : Bool
  deletedAt : Option Nat
  deletedBy : Option Nat
  editCount : Nat
  lastEditedAt : Option Nat
  lastEditedBy : Option Nat
  isRead : Bool
  readAt : Option Nat
  createdAt : Nat
deriving DecidableEq

/-- Record type of the thought history table of the shared schema. -/
structure ThoughtHistory where
  id : Nat
  thoughtId : Nat
  title : String
  content : String
  category : String
  department : Option String
  editedBy : Nat
  editedAt : Nat
  changeType : String
deriving DecidableEq

/-- Input shape accepted by createClinic (insertClinicSchema). -/
structure InsertClinic where
  name : String
  url : Option String := none
  logoUrl : Option String := none
  departments : Option (List String) := none
deriving DecidableEq

/-- Input shape accepted by createUser (insertUserSchema). -/
structure InsertUser where
  username : String
  email : String
  password : String
  role : Option String := none
  clinicId : Option Nat := none
deriving DecidableEq

/-- Input shape accepted by createThought (insertThoughtSchema). -/
structure InsertThought where
  clinicId : Nat
  title : String
  content : String
  category : Option String := none
  department : Option String := none
  authorId : Nat
deriving DecidableEq

/-- Partial insert shape accepted by updateThought: each present field
overwrites the stored field when the update object is spread over the
stored record.  The department field can itself be set to null, hence
the nested Option. -/
structure ThoughtUpdates where
  clinicId : Option Nat := none
  title : Option String := none
  content : Option String := none
  category : Option String := none
  department : Option (Option String) := none
  authorId : Option Nat := none
deriving DecidableEq

/-- JavaScript String.prototype.toLowerCase, as a structurally
recursive map over the characters of the string. -/
def jsToLower (s : String) : String :=
  String.mk (s.data.map Char.toLower)

/-- JavaScript String.prototype.trim: drop leading and trailing
whitespace, by structural recursion over the character list. -/
def jsTrim (s : String) : String :=
  String.mk (((s.data.dropWhile Char.isWhitespace).reverse.dropWhile
    Char.isWhitespace).reverse)

/-- JavaScript or-default on a possibly absent string: the empty string
is falsy, so x two-pipes d yields d when x is absent or empty. -/
def jsOrString (x : Option String) (d : String) : String :=
  match x with
  | some s => if s = "" then d else s
  | none => d

/-- JavaScript x-or-null on a possibly absent string: normalises the
empty string (falsy) to null. -/
def jsOrNullString (x : Option String) : Option String :=
  match x with
  | some s => if s = "" then none else some s
  | none => none

/-- JavaScript x-or-null on a possibly absent number: 0 is falsy. -/
def jsOrNullNat (x : Option Nat) : Option Nat :=
  match x with
  | some n => if n = 0 then none else some n
  | none => none

/-- JavaScript or-default on a possibly absent array: every array is
truthy, including the empty one, so only a missing or null array falls
back to the default. -/
def jsOrList (x : Option (List String)) (d : List String) : List String :=
  match x with
  | some l => l
  | none => d

@[simp]
theorem jsOrList_some (l d : List String) : jsOrList (some l) d = l := rfl

@[simp]
theorem jsOrList_none (d : List String) : jsOrList none d = d := rfl

/-- Lookup in a JavaScript Map modelled as an association list: the
first binding of the key wins (keys are unique in an actual Map). -/
def mapGet {α : Type} : List (Nat × α) → Nat → Option α
  | [], _ => none
  | p :: rest, k => if p.1 = k then some p.2 else mapGet rest k

/-- Update in a JavaScript Map modelled as an association list: replace
the first binding of the key in place, or append a fresh binding at the
end, preserving insertion order. -/
def mapSet {α : Type} : List (Nat × α) → Nat → α → List (Nat × α)
  | [], k, v => [(k, v)]
  | p :: rest, k, v => if p.1 = k then (k, v) :: rest else p :: mapSet rest k v

/-- Deletion in a JavaScript Map modelled as an association list. -/
def mapDelete {α : Type} : List (Nat × α) → Nat → List (Nat × α)
  | [], _ => []
  | p :: rest, k => if p.1 = k then rest else p :: mapDelete rest k

/-- Iteration over the values of a JavaScript Map, in insertion order. -/
def mapValues {α : Type} (m : List (Nat × α)) : List α :=
  m.map (fun p => p.2)

@[simp]
theorem mapGet_mapSet_self {α : Type} (m : List (Nat × α)) (k : Nat) (v : α) :
    mapGet (mapSet m k v) k = some v := by
  induction m with
  | nil => simp [mapGet, mapSet]
  | cons p rest ih =>
    by_cases h : p.1 = k
    · simp [mapGet, mapSet, h]
    · simp [mapGet, mapSet, h, ih]

theorem mapGet_mapSet_ne {α : Type} (m : List (Nat × α)) (k k' : Nat) (v : α)
    (h : k' ≠ k) : mapGet (mapSet m k v) k' = mapGet m k' := by
  induction m with
  | nil => simp [mapGet, mapSet, Ne.symm h]
  | cons p rest ih =>
    by_cases hp : p.1 = k
    · subst hp
      simp [mapGet, mapSet, Ne.symm h]
    · by_cases hp' : p.1 = k'
      · simp [mapGet, mapSet, hp, hp', h]
      · simp [mapGet, mapSet, hp, hp', ih]

theorem mapSet_eq_of_mapGet {α : Type} (m : List (Nat × α)) (k : Nat) (v : α)
    (h : mapGet m k = some v) : mapSet m k v = m := by
  induction m with
  | nil => simp [mapGet] at h
  | cons p rest ih =>
    match p with
    | (k1, v1) =>
      by_cases hp : k1 = k
      · subst hp
        simp only [mapGet, if_pos, Option.some.injEq] at h
        subst h
        simp [mapSet]
      · simp only [mapGet, hp, if_neg, ite_false] at h
        simp [mapSet, hp, ih h]

theorem mapGet_map_value {α : Type} (m : List (Nat × α)) (g : α → α) (k : Nat) :
    mapGet (m.map (fun p => (p.1, g p.2))) k = (mapGet m k).map g := by
  induction m with
  | nil => simp [mapGet]
  | cons p rest ih =>
    by_cases hp : p.1 = k
    · simp [mapGet, hp]
    · simp [mapGet, hp, ih]

theorem mem_mapSet {α : Type} (m : List (Nat × α)) (k : Nat) (v : α) (q : Nat × α)
    (h : q ∈ mapSet m k v) : q ∈ m ∨ q = (k, v) := by
  induction m with
  | nil => simp [mapSet] at h; simp [h]
  | cons p rest ih =>
    by_cases hp : p.1 = k
    · simp only [mapSet, hp, if_pos] at h
      rcases List.mem_cons.mp h with h1 | h1
      · right; exact h1
      · left; exact List.mem_cons_of_mem _ h1
    · simp only [mapSet, hp, ite_false, if_neg] at h
      rcases List.mem_cons.mp h with h1 | h1
      · left; simp [h1]
      · rcases ih h1 with h2 | h2
        · left; exact List.mem_cons_of_mem _ h2
        · right; exact h2

theorem mapSet_of_fresh {α : Type} (m : List (Nat × α)) (k : Nat) (v : α)
    (h : ∀ q ∈ m, q.1 ≠ k) : mapSet m k v = m ++ [(k, v)] := by
  induction m with
  | nil => simp [mapSet]
  | cons p rest ih =>
    have hp : p.1 ≠ k := h p (List.mem_cons_self _ _)
    simp only [mapSet, hp, ite_false, if_neg, List.cons_append]
    rw [ih (fun q hq => h q (List.mem_cons_of_mem _ hq))]

/-- The private state of a MemStorage instance: four insertion-ordered
maps and four monotonically increasing id counters. -/
structure StorageState where
  users : List (Nat × User)
  clinics : List (Nat × Clinic)
  thoughts : List (Nat × Thought)
  thoughtHistory : List (Nat × ThoughtHistory)
  currentUserId : Nat
  currentClinicId : Nat
  currentThoughtId : Nat
  currentHistoryId : Nat
deriving DecidableEq

/-- The state produced by the MemStorage constructor: empty maps, all
counters at 1. -/
def emptyStorage : StorageState :=
  { users := [], clinics := [], thoughts := [], thoughtHistory := [],
    currentUserId := 1, currentClinicId := 1, currentThoughtId := 1,
    currentHistoryId := 1 }

/-- MemStorage.createUser. -/
def createUser (now : Nat) (st : StorageState) (iu : InsertUser) :
    User × StorageState :=
  let user : User :=
    { id := st.currentUserId
      username := iu.username
      email := iu.email
      password := iu.password
      role := jsOrString iu.role "user"
      clinicId := jsOrNullNat iu.clinicId
      createdAt := some now }
  (user, { st with users := mapSet st.users user.id user,
                   currentUserId := st.currentUserId + 1 })

/-- MemStorage.deleteUser. -/
def deleteUser (st : StorageState) (id : Nat) : Bool × StorageState :=
  ((mapGet st.users id).isSome, { st with users := mapDelete st.users id })

/-- MemStorage.createClinic: a missing or null departments array
defaults to the single-element General list, but an explicitly supplied
array is stored verbatim because every array is truthy. -/
def createClinic (now : Nat) (st : StorageState) (ic : InsertClinic) :
    Clinic × StorageState :=
  let clinic : Clinic :=
    { id := st.currentClinicId
      name := ic.name
      url := jsOrNullString ic.url
      logoUrl := jsOrNullString ic.logoUrl
      departments := some (jsOrList ic.departments ["General"])
      createdAt := now }
  (clinic, { st with clinics := mapSet st.clinics clinic.id clinic,
                     currentClinicId := st.currentClinicId + 1 })

/-- MemStorage.getDepartmentsByClinic: the department array of the
clinic, or the single-element General list when the clinic is missing
or its departments column is null; an empty stored array is truthy and
is returned as is. -/
def getDepartmentsByClinic (st : StorageState) (clinicId : Nat) : List String :=
  match mapGet st.clinics clinicId with
  | none => ["General"]
  | some clinic =>
    match clinic.departments with
    | none => ["General"]
    | some l => l

/-- MemStorage.addDepartmentToClinic. -/
def addDepartmentToClinic (st : StorageState) (clinicId : Nat)
    (department : String) : Bool × StorageState :=
  match mapGet st.clinics clinicId with
  | none => (false, st)
  | some clinic =>
    let trimmedDepartment := jsTrim department
    if trimmedDepartment = "" then (false, st)
    else
      let departments := jsOrList clinic.departments []
      if departments.any (fun d => jsToLower d == jsToLower trimmedDepartment) then
        (false, st)
      else
        let updatedDepartments := departments ++ [trimmedDepartment]
        let updatedClinic := { clinic with departments := some updatedDepartments }
        (true, { st with clinics := mapSet st.clinics clinicId updatedClinic })

/-- The body of the thought-rewriting loops of the two department
cascade operations: a thought of the given clinic whose department
equals the matched stored name has its department replaced by the new
name; every other thought passes through unchanged. -/
def rewriteThoughtDepartment (clinicId : Nat) (matchName newName : String)
    (t : Thought) : Thought :=
  if t.department == some matchName && t.clinicId == clinicId then
    { t with department := some newName }
  else t

/-- MemStorage.updateDepartmentInClinic: looks the old name up
case-insensitively, renames it in place, then rewrites the department
of every thought of the same clinic whose department equals the exact
stored name at the found index. -/
def updateDepartmentInClinic (st : StorageState) (clinicId : Nat)
    (oldDepartment newDepartment : String) : Bool × StorageState :=
  match mapGet st.clinics clinicId with
  | none => (false, st)
  | some clinic =>
    let trimmedOld := jsTrim oldDepartment
    let trimmedNew := jsTrim newDepartment
    if trimmedOld = "" ∨ trimmedNew = "" then (false, st)
    else
      let departments := jsOrList clinic.departments []
      match List.findIdx? (fun d => jsToLower d == jsToLower trimmedOld) departments with
      | none => (false, st)
      | some oldIndex =>
        if departments.enum.any
            (fun p => p.1 != oldIndex && jsToLower p.2 == jsToLower trimmedNew) then
          (false, st)
        else
          let updatedDepartments := departments.set oldIndex trimmedNew
          let oldName := departments.getD oldIndex ""
          let newThoughts := st.thoughts.map (fun p =>
            (p.1, rewriteThoughtDepartment clinicId oldName trimmedNew p.2))
          let updatedClinic := { clinic with departments := some updatedDepartments }
          (true, { st with
                     thoughts := newThoughts,
                     clinics := mapSet st.clinics clinicId updatedClinic })

/-- MemStorage.removeDepartmentFromClinic: refuses to delete the last
department; on success removes the entry and reassigns every thought of
the clinic that referenced the removed name to the first element of the
updated list, falling back to General when that element is missing or
is the empty string (both falsy). -/
def removeDepartmentFromClinic (st : StorageState) (clinicId : Nat)
    (department : String) : Bool × StorageState :=
  match mapGet st.clinics clinicId with
  | none => (false, st)
  | some clinic =>
    let trimmedDepartment := jsTrim department
    if trimmedDepartment = "" then (false, st)
    else
      let departments := jsOrList clinic.departments []
      match List.findIdx? (fun d => jsToLower d == jsToLower trimmedDepartment) departments with
      | none => (false, st)
      | some index =>
        if departments.length ≤ 1 then (false, st)
        else
          let departmentToRemove := departments.getD index ""
          let updatedDepartments := departments.eraseIdx index
          let reassigned := jsOrString updatedDepartments.head? "General"
          let newThoughts := st.thoughts.map (fun p =>
            (p.1, rewriteThoughtDepartment clinicId departmentToRemove reassigned p.2))
          let updatedClinic := { clinic with departments := some updatedDepartments }
          (true, { st with
                     thoughts := newThoughts,
                     clinics := mapSet st.clinics clinicId updatedClinic })

/-- MemStorage.createHistoryEntry (private helper). -/
def createHistoryEntry (now : Nat) (st : StorageState) (thoughtId : Nat)
    (thought : Thought) (userId : Nat) (changeType : String) : StorageState :=
  let historyEntry : ThoughtHistory :=
    { id := st.currentHistoryId
      thoughtId := thoughtId
      title := thought.title
      content := thought.content
      category := thought.category
      department := thought.department
      editedBy := userId
      editedAt := now
      changeType := changeType }
  { st with thoughtHistory := mapSet st.thoughtHistory historyEntry.id historyEntry,
            currentHistoryId := st.currentHistoryId + 1 }

/-- MemStorage.createThought: builds the thought with editCount 0 and
unread status, stores it, and appends a created history entry. -/
def createThought (now : Nat) (st : StorageState) (it : InsertThought)
    (userId : Nat) : Thought × StorageState :=
  let thought : Thought :=
    { id := st.currentThoughtId
      clinicId := it.clinicId
      title := it.title
      content := it.content
      category := jsOrString it.category "General"
      department := jsOrNullString it.department
      authorId := it.authorId
      isDeleted := false
      deletedAt := none
      deletedBy := none
      editCount := 0
      lastEditedAt := none
      lastEditedBy := none
      isRead := false
      readAt := none
      createdAt := now }
  let st1 : StorageState :=
    { st with thoughts := mapSet st.thoughts thought.id thought,
              currentThoughtId := st.currentThoughtId + 1 }
  (thought, createHistoryEntry now st1 thought.id thought userId "created")

/-- Merge a partial update object onto a stored thought, as the spread
of the update over the record does in the source. -/
def applyThoughtUpdates (t : Thought) (u : ThoughtUpdates) : Thought :=
  { t with
      clinicId := u.clinicId.getD t.clinicId
      title := u.title.getD t.title
      content := u.content.getD t.content
      category := u.category.getD t.category
      department := u.department.getD t.department
      authorId := u.authorId.getD t.authorId }

/-- MemStorage.updateThought: merges the updates, increments editCount,
stamps the editor and time, and appends an edited history entry with
the post-merge field values. -/
def updateThought (now : Nat) (st : StorageState) (id : Nat)
    (updates : ThoughtUpdates) (userId : Nat) : Option Thought × StorageState :=
  match mapGet st.thoughts id with
  | none => (none, st)
  | some thought =>
    let updatedThought : Thought :=
      { applyThoughtUpdates thought updates with
          editCount := thought.editCount + 1
          lastEditedAt := some now
          lastEditedBy := some userId }
    let st1 : StorageState :=
      { st with thoughts := mapSet st.thoughts id updatedThought }
    (some updatedThought, createHistoryEntry now st1 id updatedThought userId "edited")

/-- MemStorage.deleteThought: soft delete plus a deleted history entry. -/
def deleteThought (now : Nat) (st : StorageState) (id : Nat) (userId : Nat) :
    Bool × StorageState :=
  match mapGet st.thoughts id with
  | none => (false, st)
  | some thought =>
    let deletedThought : Thought :=
      { thought with isDeleted := true, deletedAt := some now,
                     deletedBy := some userId }
    let st1 : StorageState :=
      { st with thoughts := mapSet st.thoughts id deletedThought }
    (true, createHistoryEntry now st1 id deletedThought userId "deleted")

/-- MemStorage.markThoughtAsRead: sets isRead and overwrites readAt with
the current time, whether or not the thought was already read. -/
def markThoughtAsRead (now : Nat) (st : StorageState) (thoughtId : Nat) :
    Bool × StorageState :=
  match mapGet st.thoughts thoughtId with
  | none => (false, st)
  | some thought =>
    let updatedThought := { thought with isRead := true, readAt := some now }
    (true, { st with thoughts := mapSet st.thoughts thoughtId updatedThought })

/-- MemStorage.getUnreadThoughtsCount. -/
def getUnreadThoughtsCount (st : StorageState) (clinicId : Nat) : Nat :=
  ((mapValues st.thoughts).filter (fun t =>
    t.clinicId == clinicId && !t.isDeleted && !t.isRead)).length

/-- Optional filters of getThoughtsByClinic.  The two date fields hold
the timestamp parsed from the supplied date string; none stands for an
absent or empty (falsy) string. -/
structure ThoughtFilters where
  startDate : Option Nat := none
  endDate : Option Nat := none
  userId : Option Nat := none
  department : Option String := none
  includeRead : Option Bool := none
deriving DecidableEq

/-- Result row of getThoughtsByClinic: the thought joined with its
author and the optional deleter and last editor. -/
structure ThoughtWithAuthor where
  thought : Thought
  author : User
  deletedByUser : Option User
  lastEditedByUser : Option User
deriving DecidableEq

/-- Date.setHours applied with 23 59 59 999 under a UTC runtime: the
last millisecond of the UTC day containing the timestamp. -/
def endOfDayMs (t : Nat) : Nat :=
  (t / 86400000) * 86400000 + 86399999

/-- The filter pipeline of getThoughtsByClinic, in source order.  A
user id of 0 and an empty department string are falsy and disable
their filters; the read filter fires only on an explicit false. -/
def applyFilters (fs : ThoughtFilters) (l : List Thought) : List Thought :=
  let l1 := match fs.startDate with
    | some s => l.filter (fun t => decide (s ≤ t.createdAt))
    | none => l
  let l2 := match fs.endDate with
    | some e => l1.filter (fun t => decide (t.createdAt ≤ endOfDayMs e))
    | none => l1
  let l3 := match fs.userId with
    | some u => if u = 0 then l2 else l2.filter (fun t => t.authorId == u)
    | none => l2
  let l4 := match fs.department with
    | some d => if d = "" then l3 else l3.filter (fun t => t.department == some d)
    | none => l3
  match fs.includeRead with
  | some false => l4.filter (fun t => !t.isRead)
  | _ => l4

/-- Lookup of an optional user id under JavaScript truthiness: an
absent id or the falsy id 0 yields null without a map access. -/
def lookupOptionalUser (st : StorageState) (x : Option Nat) : Option User :=
  match x with
  | some u => if u = 0 then none else mapGet st.users u
  | none => none

/-- The author join loop of getThoughtsByClinic: thoughts whose author
cannot be resolved are silently dropped. -/
def attachAuthors (st : StorageState) : List Thought → List ThoughtWithAuthor
  | [] => []
  | t :: ts =>
    match mapGet st.users t.authorId with
    | some author =>
      { thought := t
        author := author
        deletedByUser := lookupOptionalUser st t.deletedBy
        lastEditedByUser := lookupOptionalUser st t.lastEditedBy } ::
        attachAuthors st ts
    | none => attachAuthors st ts

/-- MemStorage.getThoughtsByClinic: clinic and deletion filters, the
optional filter pipeline, the author join, then a stable sort by
createdAt descending. -/
def getThoughtsByClinic (st : StorageState) (clinicId : Nat)
    (includeDeleted : Bool) (filters : Option ThoughtFilters) :
    List ThoughtWithAuthor :=
  let base := ((mapValues st.thoughts).filter
      (fun t => t.clinicId == clinicId)).filter
      (fun t => includeDeleted || !t.isDeleted)
  let filtered := match filters with
    | some fs => applyFilters fs base
    | none => base
  List.insertionSort (fun a b => b.thought.createdAt ≤ a.thought.createdAt)
    (attachAuthors st filtered)

/-- Result row of getThoughtHistory: the entry joined with the editing
user or a placeholder. -/
structure ThoughtHistoryWithUser where
  entry : ThoughtHistory
  editedByUser : User
deriving DecidableEq

/-- The placeholder user substituted when the editor of a history entry
can no longer be resolved. -/
def unknownUser (id : Nat) : User :=
  { id := id
    username := "Unknown User " ++ toString id
    email := "unknown@example.com"
    password := ""
    role := "user"
    clinicId := none
    createdAt := none }

/-- The stored history entries of one thought, in insertion order. -/
def storedHistoryFor (st : StorageState) (thoughtId : Nat) : List ThoughtHistory :=
  (mapValues st.thoughtHistory).filter (fun e => e.thoughtId == thoughtId)

/-- MemStorage.getThoughtHistory: the stored entries of the thought
sorted by editedAt descending and joined with their editors; when none
exist and the thought does, a single created entry is synthesized from
the current thought with Date.now() as its id.  The state is returned
unchanged alongside the result, mirroring that the method only reads
the instance. -/
def getThoughtHistory (now : Nat) (st : StorageState) (thoughtId : Nat) :
    List ThoughtHistoryWithUser × StorageState :=
  let historyEntries := List.insertionSort
    (fun a b : ThoughtHistory => b.editedAt ≤ a.editedAt)
    (storedHistoryFor st thoughtId)
  let result := historyEntries.map (fun e =>
    { entry := e
      editedByUser := (mapGet st.users e.editedBy).getD (unknownUser e.editedBy) })
  if result.isEmpty then
    match mapGet st.thoughts thoughtId with
    | some currentThought =>
      ([{ entry :=
            { id := now
              thoughtId := thoughtId
              title := currentThought.title
              content := currentThought.content
              category := currentThought.category
              department := currentThought.department
              editedBy := currentThought.authorId
              editedAt := currentThought.createdAt
              changeType := "created" }
          editedByUser := (mapGet st.users currentThought.authorId).getD
            (unknownUser currentThought.authorId) }], st)
    | none => ([], st)
  else (result, st)

/-! Calendar arithmetic used to express the concrete date filters of
the spec as milliseconds since the Unix epoch. -/

/-- Gregorian leap year test. -/
def isLeap (y : Nat) : Bool :=
  (y % 4 == 0 && y % 100 != 0) || y % 400 == 0

/-- Number of days of a month of a given year. -/
def daysInMonth (y m : Nat) : Nat :=
  if m = 2 then (if isLeap y then 29 else 28)
  else if m = 4 ∨ m = 6 ∨ m = 9 ∨ m = 11 then 30
  else 31

/-- Number of days from 1970-01-01 to the first day of the given year. -/
def daysBeforeYear (y : Nat) : Nat :=
  (List.range (y - 1970)).foldl
    (fun acc i => acc + (if isLeap (1970 + i) then 366 else 365)) 0

/-- Number of days from the first day of the year to the first day of
the given month. -/
def daysBeforeMonth (y m : Nat) : Nat :=
  (List.range (m - 1)).foldl (fun acc i => acc + daysInMonth y (i + 1)) 0

/-- Milliseconds since the Unix epoch of a UTC calendar instant, as
produced by Date.parse on an ISO date string and by Date.getTime. -/
def epochMs (y m d hh mi ss ms : Nat) : Nat :=
  ((daysBeforeYear y + daysBeforeMonth y m + (d - 1)) * 86400
    + hh * 3600 + mi * 60 + ss) * 1000 + ms

/-- A throwaway thought record used only to name lookup results in
concrete witness statements. -/
def someThought : Thought :=
  { id := 0, clinicId := 0, title := "", content := "", category := ""
    department := none, authorId := 0, isDeleted := false, deletedAt := none
    deletedBy := none, editCount := 0, lastEditedAt := none
    lastEditedBy := none, isRead := false, readAt := none, createdAt := 0 }

end ThoughtsApp

namespace ThoughtsApp

/-! Claim C9: createClinic with an explicitly empty departments array. -/

/-- C9: createClinic stores an explicitly supplied empty departments
array verbatim, because an empty array is truthy; the General default
applies only when the field is absent or null.  Hence the never-empty
department invariant is not established at clinic creation. -/
theorem c9_createClinic_empty_departments (now : Nat) (st : StorageState)
    (name : String) (url logoUrl : Option String) :
    ((createClinic now st
        { name := name, url := url, logoUrl := logoUrl,
          departments := some [] }).1).departments = some [] ∧
    mapGet ((createClinic now st
        { name := name, url := url, logoUrl := logoUrl,
          departments := some [] }).2).clinics st.currentClinicId =
      some ((createClinic now st
        { name := name, url := url, logoUrl := logoUrl,
          departments := some [] }).1) ∧
    ((createClinic now st
        { name := name, url := url, logoUrl := logoUrl,
          departments := none }).1).departments = some ["General"] := by
  refine ⟨rfl, ?_, rfl⟩
  simp [createClinic]

/-! Claim C3: getDepartmentsByClinic and the General default. -/

/-- A state holding one clinic, created with an explicitly empty
departments array through the public createClinic operation. -/
def c3state : StorageState :=
  (createClinic 0 emptyStorage { name := "Clinic A", departments := some [] }).2

/-- C3 counterexample: the clinic with id 1 exists in c3state, yet
getDepartmentsByClinic returns the empty list for it, refuting the
claim that the result is never empty. -/
theorem c3_counterexample :
    (mapGet c3state.clinics 1).isSome = true ∧
    getDepartmentsByClinic c3state 1 = [] := by
  exact ⟨rfl, rfl⟩

/-- C3 amended: getDepartmentsByClinic returns the single-element
General list when the clinic is missing or its departments column is
null, and otherwise returns the stored array verbatim; consequently the
result is empty exactly when the clinic stores an empty array. -/
theorem c3_getDepartments_amended (st : StorageState) (cid : Nat) (c : Clinic) :
    (mapGet st.clinics cid = none →
       getDepartmentsByClinic st cid = ["General"]) ∧
    (mapGet st.clinics cid = some c →
       getDepartmentsByClinic st cid = jsOrList c.departments ["General"]) ∧
    (getDepartmentsByClinic st cid = [] ↔
       (mapGet st.clinics cid).bind (fun cl => cl.departments) = some []) := by
  refine ⟨?_, ?_, ?_⟩
  · intro h; simp [getDepartmentsByClinic, h]
  · intro h
    cases hd : c.departments <;> simp [getDepartmentsByClinic, h, hd, jsOrList]
  · cases hc : mapGet st.clinics cid with
    | none => simp [getDepartmentsByClinic, hc]
    | some cl => cases hd : cl.departments <;> simp [getDepartmentsByClinic, hc, hd]

/-- C3 amended, witnessed at a concrete state: the clinic of c3state
stores the empty array, so the lookup returns it verbatim. -/
theorem c3_getDepartments_amended_witness :
    getDepartmentsByClinic c3state 1 =
      jsOrList (some ([] : List String)) ["General"] := by
  exact (c3_getDepartments_amended c3state 1
    ((mapGet c3state.clinics 1).getD
      { id := 0, name := "", url := none, logoUrl := none,
        departments := none, createdAt := 0 })).2.1 (by decide)

/-! Claim C2: markThoughtAsRead and idempotence. -/

/-- A state holding one thought that was created at time 3 and marked
as read at time 10. -/
def c2state : StorageState :=
  (markThoughtAsRead 10
    (createThought 3 emptyStorage
      { clinicId := 1, title := "t", content := "c", authorId := 1 } 1).2 1).2

/-- C2 counterexample: re-marking the already-read thought of c2state
at the later time 11 changes the stored thought (its readAt moves from
10 to 11), so the second call is not a no-op. -/
theorem c2_counterexample :
    mapGet ((markThoughtAsRead 11 c2state 1).2).thoughts 1 ≠
      mapGet c2state.thoughts 1 := by
  decide

/-- C2 amended: markThoughtAsRead on an existing already-read thought
returns true and leaves every field except readAt unchanged, but
overwrites readAt with the current time; it is a strict no-op only when
the current time coincides with the stored readAt. -/
theorem c2_markRead_amended (now : Nat) (st : StorageState) (tid : Nat)
    (t : Thought) (ht : mapGet st.thoughts tid = some t)
    (hr : t.isRead = true) :
    markThoughtAsRead now st tid = (true, ({ st with thoughts := mapSet st.thoughts tid ({ t with isRead := true, readAt := some now }) })) ∧
    (t.readAt = some now → markThoughtAsRead now st tid = (true, st)) := by
  constructor
  · simp [markThoughtAsRead, ht]
  · intro hra
    have hsame : ({ t with isRead := true, readAt := some now } : Thought) = t := by
      cases t
      simp_all
    rw [markThoughtAsRead, ht]
    simp only [hsame, mapSet_eq_of_mapGet _ _ _ ht]

/-! Claim C1: the department list never becomes empty under the three
department operations. -/

/-- One call to a department operation of the storage interface. -/
inductive DeptOp where
  | add (clinicId : Nat) (department : String)
  | update (clinicId : Nat) (oldDepartment newDepartment : String)
  | remove (clinicId : Nat) (department : String)
deriving DecidableEq

/-- The state transition of one department operation. -/
def applyDeptOp (st : StorageState) : DeptOp → StorageState
  | .add cid d => (addDepartmentToClinic st cid d).2
  | .update cid od nd => (updateDepartmentInClinic st cid od nd).2
  | .remove cid d => (removeDepartmentFromClinic st cid d).2

/-- The state after a finite sequence of department operations. -/
def applyDeptOps (st : StorageState) (ops : List DeptOp) : StorageState :=
  ops.foldl applyDeptOp st

/-- Length of the department list of a clinic, with a missing clinic or
a null column counting as zero. -/
def clinicDeptLen (st : StorageState) (cid : Nat) : Nat :=
  match mapGet st.clinics cid with
  | some c => (jsOrList c.departments []).length
  | none => 0

theorem clinicDeptLen_applyDeptOp (st : StorageState) (cid : Nat) (op : DeptOp)
    (h : 1 ≤ clinicDeptLen st cid) : 1 ≤ clinicDeptLen (applyDeptOp st op) cid := by
  cases op with
  | add cid' d =>
    simp only [applyDeptOp, addDepartmentToClinic]
    cases hc : mapGet st.clinics cid' with
    | none => exact h
    | some clinic =>
      simp only
      split
      · exact h
      · split
        · exact h
        · by_cases he : cid = cid'
          · subst he
            simp only [clinicDeptLen, mapGet_mapSet_self, jsOrList,
              List.length_append, List.length_cons, List.length_nil]
            omega
          · simpa only [clinicDeptLen, mapGet_mapSet_ne _ _ _ _ he] using h
  | update cid' od nd =>
    simp only [applyDeptOp, updateDepartmentInClinic]
    cases hc : mapGet st.clinics cid' with
    | none => exact h
    | some clinic =>
      simp only
      split
      · exact h
      · split
        · exact h
        · split
          · exact h
          · by_cases he : cid = cid'
            · subst he
              simp only [clinicDeptLen, hc] at h
              simp only [clinicDeptLen, mapGet_mapSet_self, jsOrList, List.length_set]
              exact h
            · simpa only [clinicDeptLen, mapGet_mapSet_ne _ _ _ _ he] using h
  | remove cid' d =>
    simp only [applyDeptOp, removeDepartmentFromClinic]
    cases hc : mapGet st.clinics cid' with
    | none => exact h
    | some clinic =>
      simp only
      split
      · exact h
      · split
        · exact h
        · rename_i index hidx
          split
          · exact h
          · rename_i hlen
            by_cases he : cid = cid'
            · subst he
              simp only [clinicDeptLen, hc] at h
              simp only [clinicDeptLen, mapGet_mapSet_self, jsOrList_some]
              have hle := List.le_length_eraseIdx (jsOrList clinic.departments []) index
              omega
            · simpa only [clinicDeptLen, mapGet_mapSet_ne _ _ _ _ he] using h

theorem removeDept_singleton (st : StorageState) (cid : Nat) (dep : String)
    (h1 : clinicDeptLen st cid = 1) :
    removeDepartmentFromClinic st cid dep = (false, st) := by
  simp only [removeDepartmentFromClinic]
  cases hc : mapGet st.clinics cid with
  | none => rfl
  | some clinic =>
    simp only [clinicDeptLen, hc] at h1
    simp only
    split
    · rfl
    · split
      · rfl
      · split
        · rfl
        · omega

/-- C1: a clinic whose department list is non-empty keeps a non-empty
department list after any finite sequence of add, update and remove
department operations, and removeDepartmentFromClinic on a clinic with
exactly one department returns false and leaves the state unchanged. -/
theorem c1_departments_never_empty (st : StorageState) (cid : Nat)
    (ops : List DeptOp) (dep : String) (h : 1 ≤ clinicDeptLen st cid) :
    1 ≤ clinicDeptLen (applyDeptOps st ops) cid ∧
    (clinicDeptLen st cid = 1 →
       removeDepartmentFromClinic st cid dep = (false, st)) := by
  constructor
  · rw [applyDeptOps]
    induction ops generalizing st with
    | nil => exact h
    | cons op rest ih =>
      exact ih _ (clinicDeptLen_applyDeptOp st cid op h)
  · intro h1
    exact removeDept_singleton st cid dep h1

/-- A state holding one clinic with the single department General. -/
def c1state : StorageState :=
  (createClinic 0 emptyStorage { name := "Clinic B" }).2

/-- A sequence that adds a department, renames it, removes the original
department and then attempts to remove the last remaining one. -/
def c1ops : List DeptOp :=
  [DeptOp.add 1 "Cardiology", DeptOp.update 1 "Cardiology" "Heart",
   DeptOp.remove 1 "General", DeptOp.remove 1 "Heart"]

/-- C1 witnessed at a concrete clinic and a concrete sequence of
department operations. -/
theorem c1_departments_never_empty_witness :
    1 ≤ clinicDeptLen (applyDeptOps c1state c1ops) 1 ∧
    (clinicDeptLen c1state 1 = 1 →
       removeDepartmentFromClinic c1state 1 "General" = (false, c1state)) :=
  c1_departments_never_empty c1state 1 c1ops "General" (by decide)

/-- C2 amended, witnessed at the concrete state c2state at the very
timestamp already stored in readAt, where the call is a strict no-op. -/
theorem c2_markRead_amended_witness :
    markThoughtAsRead 10 c2state 1 = (true, ({ c2state with thoughts := mapSet c2state.thoughts 1 ({ (mapGet c2state.thoughts 1).getD someThought with isRead := true, readAt := some 10 }) })) ∧
    (((mapGet c2state.thoughts 1).getD someThought).readAt = some 10 →
       markThoughtAsRead 10 c2state 1 = (true, c2state)) := by
  exact c2_markRead_amended 10 c2state 1
    ((mapGet c2state.thoughts 1).getD someThought) (by decide) (by decide)

/-! Claims C4 and C5: the department rename and removal cascades. -/

/-- A throwaway clinic record used only to name lookup results in
concrete witness statements. -/
def someClinic : Clinic :=
  { id := 0, name := "", url := none, logoUrl := none,
    departments := none, createdAt := 0 }

/-- C4: a successful updateDepartmentInClinic replaces the department
at the found index in place, rewrites the department of every thought
of that clinic whose department equals the pre-rename stored name to
the trimmed new name, and leaves the thoughts of every other clinic
untouched. -/
theorem c4_rename_cascade (st st' : StorageState) (cid : Nat)
    (oldD newD : String) (c : Clinic) (i tid : Nat) (t : Thought)
    (hc : mapGet st.clinics cid = some c)
    (hi : List.findIdx? (fun d => jsToLower d == jsToLower (jsTrim oldD))
      (jsOrList c.departments []) = some i)
    (hs : updateDepartmentInClinic st cid oldD newD = (true, st'))
    (ht : mapGet st.thoughts tid = some t) :
    mapGet st'.clinics cid = some ({ c with departments := some ((jsOrList c.departments []).set i (jsTrim newD)) }) ∧
    (t.clinicId = cid → t.department = some ((jsOrList c.departments []).getD i "") → mapGet st'.thoughts tid = some ({ t with department := some (jsTrim newD) })) ∧
    (t.clinicId ≠ cid → mapGet st'.thoughts tid = some t) := by
  simp only [updateDepartmentInClinic, hc, hi] at hs
  split at hs
  · simp at hs
  · split at hs
    · simp at hs
    · simp only [Prod.mk.injEq, true_and] at hs
      subst hs
      refine ⟨?_, ?_, ?_⟩
      · simp [mapGet_mapSet_self]
      · intro h1 h2
        simp only [mapGet_map_value, ht, Option.map]
        simp [rewriteThoughtDepartment, h1, h2]
      · intro hne
        simp only [mapGet_map_value, ht, Option.map]
        simp [rewriteThoughtDepartment, hne]

/-- A state with two clinics both holding a Cardiology department and
one thought in each clinic referencing it. -/
def c4state : StorageState :=
  (createThought 2
    (createThought 1
      (createClinic 0
        (createClinic 0 emptyStorage
          { name := "A", departments := some ["Cardiology", "Surgery"] }).2
        { name := "B", departments := some ["Cardiology"] }).2
      { clinicId := 1, title := "t1", content := "c1",
        department := some "Cardiology", authorId := 1 } 1).2
    { clinicId := 2, title := "t2", content := "c2",
      department := some "Cardiology", authorId := 1 } 1).2

/-- The state after renaming Cardiology to Heart in clinic 1. -/
def c4post : StorageState :=
  (updateDepartmentInClinic c4state 1 "Cardiology" "Heart").2

/-- C4 witnessed at the concrete rename of Cardiology to Heart in
clinic 1 of c4state, observed at the matching thought 1. -/
theorem c4_rename_cascade_witness :
    mapGet c4post.clinics 1 = some ({ (mapGet c4state.clinics 1).getD someClinic with departments := some ((jsOrList ((mapGet c4state.clinics 1).getD someClinic).departments []).set 0 (jsTrim "Heart")) }) ∧
    (((mapGet c4state.thoughts 1).getD someThought).clinicId = 1 → ((mapGet c4state.thoughts 1).getD someThought).department = some ((jsOrList ((mapGet c4state.clinics 1).getD someClinic).departments []).getD 0 "") → mapGet c4post.thoughts 1 = some ({ (mapGet c4state.thoughts 1).getD someThought with department := some (jsTrim "Heart") })) ∧
    (((mapGet c4state.thoughts 1).getD someThought).clinicId ≠ 1 → mapGet c4post.thoughts 1 = some ((mapGet c4state.thoughts 1).getD someThought)) :=
  c4_rename_cascade c4state c4post 1 "Cardiology" "Heart"
    ((mapGet c4state.clinics 1).getD someClinic) 0 1
    ((mapGet c4state.thoughts 1).getD someThought)
    (by decide) (by decide) (by decide) (by decide)

/-- C5 amended: a successful removeDepartmentFromClinic erases the
found entry from the list and reassigns every thought of that clinic
whose department equals the removed stored name to the first element of
the updated list, except that the General fallback is substituted when
that element is absent or is the empty string; every other thought is
untouched; and removal from a clinic with exactly one department
returns false and leaves the state unchanged. -/
theorem c5_remove_cascade (st st' : StorageState) (cid : Nat)
    (dep : String) (c : Clinic) (i tid : Nat) (t : Thought)
    (st2 : StorageState) (cid2 : Nat) (dep2 : String)
    (hc : mapGet st.clinics cid = some c)
    (hi : List.findIdx? (fun d => jsToLower d == jsToLower (jsTrim dep))
      (jsOrList c.departments []) = some i)
    (hs : removeDepartmentFromClinic st cid dep = (true, st'))
    (ht : mapGet st.thoughts tid = some t) :
    mapGet st'.clinics cid = some ({ c with departments := some ((jsOrList c.departments []).eraseIdx i) }) ∧
    (t.clinicId = cid → t.department = some ((jsOrList c.departments []).getD i "") → mapGet st'.thoughts tid = some ({ t with department := some (jsOrString ((jsOrList c.departments []).eraseIdx i).head? "General") })) ∧
    (t.clinicId ≠ cid → mapGet st'.thoughts tid = some t) ∧
    (clinicDeptLen st2 cid2 = 1 →
       removeDepartmentFromClinic st2 cid2 dep2 = (false, st2)) := by
  simp only [removeDepartmentFromClinic, hc, hi] at hs
  split at hs
  · simp at hs
  · split at hs
    · simp at hs
    · simp only [Prod.mk.injEq, true_and] at hs
      subst hs
      refine ⟨?_, ?_, ?_, ?_⟩
      · simp [mapGet_mapSet_self]
      · intro h1 h2
        simp only [mapGet_map_value, ht, Option.map]
        simp [rewriteThoughtDepartment, h1, h2]
      · intro hne
        simp only [mapGet_map_value, ht, Option.map]
        simp [rewriteThoughtDepartment, hne]
      · intro h1
        exact removeDept_singleton st2 cid2 dep2 h1

/-- A state with one clinic whose department list starts with the empty
string, and one thought referencing the department B; both records were
created through the public creation operations. -/
def c5state : StorageState :=
  (createThought 5
    (createClinic 0 emptyStorage { name := "C", departments := some ["", "B"] }).2
    { clinicId := 1, title := "x", content := "y",
      department := some "B", authorId := 7 } 7).2

/-- The state after removing department B from clinic 1 of c5state. -/
def c5post : StorageState :=
  (removeDepartmentFromClinic c5state 1 "B").2

/-- C5 counterexample: removing B succeeds and leaves the updated list
with the empty string as its first department, yet the referencing
thought is reassigned to General, not to that first department, because
the empty string is falsy. -/
theorem c5_counterexample :
    (removeDepartmentFromClinic c5state 1 "B").1 = true ∧
    (mapGet c5post.clinics 1).map (fun c => c.departments) = some (some [""]) ∧
    (mapGet c5post.thoughts 1).map (fun t => t.department) = some (some "General") ∧
    some (some "General") ≠ (some (some "") : Option (Option String)) := by
  refine ⟨by decide, by decide, by decide, by decide⟩

/-- C5 amended, witnessed at the concrete removal of B from clinic 1 of
c5state, observed at the matching thought 1. -/
theorem c5_remove_cascade_witness :
    mapGet c5post.clinics 1 = some ({ (mapGet c5state.clinics 1).getD someClinic with departments := some ((jsOrList ((mapGet c5state.clinics 1).getD someClinic).departments []).eraseIdx 1) }) ∧
    (((mapGet c5state.thoughts 1).getD someThought).clinicId = 1 → ((mapGet c5state.thoughts 1).getD someThought).department = some ((jsOrList ((mapGet c5state.clinics 1).getD someClinic).departments []).getD 1 "") → mapGet c5post.thoughts 1 = some ({ (mapGet c5state.thoughts 1).getD someThought with department := some (jsOrString ((jsOrList ((mapGet c5state.clinics 1).getD someClinic).departments []).eraseIdx 1).head? "General") })) ∧
    (((mapGet c5state.thoughts 1).getD someThought).clinicId ≠ 1 → mapGet c5post.thoughts 1 = some ((mapGet c5state.thoughts 1).getD someThought)) ∧
    (clinicDeptLen c1state 1 = 1 →
       removeDepartmentFromClinic c1state 1 "General" = (false, c1state)) :=
  c5_remove_cascade c5state c5post 1 "B"
    ((mapGet c5state.clinics 1).getD someClinic) 1 1
    ((mapGet c5state.thoughts 1).getD someThought)
    c1state 1 "General"
    (by decide) (by decide) (by decide) (by decide)


/-! Claims C7 and C10: getThoughtHistory, its synthesized fallback
entry and its freedom from side effects. -/

/-- Extracting the raw entries back out of the user-joined rows of
getThoughtHistory recovers the sorted entry list. -/
theorem map_entry_mk (L : List ThoughtHistory) (f : ThoughtHistory → User) :
    (L.map (fun e => ({ entry := e, editedByUser := f e } : ThoughtHistoryWithUser))).map
      (fun e => e.entry) = L := by
  induction L with
  | nil => rfl
  | cons a l ih => simp [ih]

/-- C7: getThoughtHistory on a thought with zero stored history entries
returns exactly one synthesized created entry whose content fields,
editor and timestamp are taken from the current thought; on a thought
with stored entries it returns exactly those entries, sorted by
editedAt descending. -/
theorem c7_history_fallback (now : Nat) (st : StorageState) (tid : Nat)
    (t : Thought) :
    (storedHistoryFor st tid = [] → mapGet st.thoughts tid = some t →
       (getThoughtHistory now st tid).1.map (fun e => e.entry) =
         [{ id := now, thoughtId := tid, title := t.title, content := t.content, category := t.category, department := t.department, editedBy := t.authorId, editedAt := t.createdAt, changeType := "created" }]) ∧
    (storedHistoryFor st tid ≠ [] →
       List.Perm ((getThoughtHistory now st tid).1.map (fun e => e.entry))
         (storedHistoryFor st tid) ∧
       List.Pairwise (fun a b => b.editedAt ≤ a.editedAt)
         ((getThoughtHistory now st tid).1.map (fun e => e.entry))) := by
  constructor
  · intro h0 ht
    simp [getThoughtHistory, h0, ht]
  · intro hne
    have hperm := List.perm_insertionSort
      (fun a b : ThoughtHistory => b.editedAt ≤ a.editedAt)
      (storedHistoryFor st tid)
    have hsne : List.insertionSort
        (fun a b : ThoughtHistory => b.editedAt ≤ a.editedAt)
        (storedHistoryFor st tid) ≠ [] := by
      intro hnil
      rw [hnil] at hperm
      exact hne (List.Perm.eq_nil hperm.symm)
    have hmap : (getThoughtHistory now st tid).1.map (fun e => e.entry) =
        List.insertionSort (fun a b : ThoughtHistory => b.editedAt ≤ a.editedAt)
          (storedHistoryFor st tid) := by
      simp only [getThoughtHistory]
      rw [if_neg]
      · exact map_entry_mk _ _
      · simp [hsne]
    rw [hmap]
    refine ⟨hperm, ?_⟩
    haveI : IsTotal ThoughtHistory (fun a b => b.editedAt ≤ a.editedAt) :=
      ⟨fun a b => le_total b.editedAt a.editedAt⟩
    haveI : IsTrans ThoughtHistory (fun a b => b.editedAt ≤ a.editedAt) :=
      ⟨fun a b c h1 h2 => le_trans h2 h1⟩
    exact List.sorted_insertionSort
      (fun a b : ThoughtHistory => b.editedAt ≤ a.editedAt)
      (storedHistoryFor st tid)

/-- A thought stored without any history entry, as could predate
history tracking. -/
def c7thought : Thought :=
  { someThought with
      id := 1
      clinicId := 1
      title := "T"
      content := "C"
      category := "General"
      authorId := 4
      createdAt := 9 }

/-- A state holding c7thought and an empty history log. -/
def c7state : StorageState :=
  { emptyStorage with thoughts := [(1, c7thought)], currentThoughtId := 2 }

/-- C7 witnessed at the concrete history-less thought of c7state: the
fallback entry is synthesized from the thought itself. -/
theorem c7_history_fallback_witness :
    (getThoughtHistory 60 c7state 1).1.map (fun e => e.entry) =
      [{ id := 60, thoughtId := 1, title := c7thought.title, content := c7thought.content, category := c7thought.category, department := c7thought.department, editedBy := c7thought.authorId, editedAt := c7thought.createdAt, changeType := "created" }] :=
  (c7_history_fallback 60 c7state 1 c7thought).1 (by decide) (by decide)

/-- C10: getThoughtHistory returns the state unchanged; in particular
the stored history of a history-less thought stays empty after the
call, and repeated calls synthesize a fresh fallback entry whose id is
the current Date.now() timestamp of each call rather than a persisted
one. -/
theorem c10_getThoughtHistory_pure (now now2 : Nat) (st : StorageState)
    (tid : Nat) (t : Thought) (ht : mapGet st.thoughts tid = some t)
    (hempty : storedHistoryFor st tid = []) :
    (getThoughtHistory now st tid).2 = st ∧
    storedHistoryFor ((getThoughtHistory now st tid).2) tid = [] ∧
    (getThoughtHistory now st tid).1.map (fun e => e.entry.id) = [now] ∧
    (getThoughtHistory now2 st tid).1.map (fun e => e.entry.id) = [now2] := by
  refine ⟨?_, ?_, ?_, ?_⟩ <;>
    simp [getThoughtHistory, hempty, ht]

/-- C10 witnessed at the concrete history-less thought of c7state with
two different call times 60 and 61. -/
theorem c10_getThoughtHistory_pure_witness :
    (getThoughtHistory 60 c7state 1).2 = c7state ∧
    storedHistoryFor ((getThoughtHistory 60 c7state 1).2) 1 = [] ∧
    (getThoughtHistory 60 c7state 1).1.map (fun e => e.entry.id) = [60] ∧
    (getThoughtHistory 61 c7state 1).1.map (fun e => e.entry.id) = [61] :=
  c10_getThoughtHistory_pure 60 61 c7state 1 c7thought (by decide) (by decide)


/-! Claim C8: getThoughtsByClinic under the concrete January 2024 date
filters. -/

/-- The timestamp parsed from the date string 2024-01-01 (midnight
UTC). -/
def c8start : Nat := epochMs 2024 1 1 0 0 0 0

/-- The timestamp parsed from the date string 2024-01-31 (midnight
UTC). -/
def c8endParsed : Nat := epochMs 2024 1 31 0 0 0 0

/-- The last millisecond of 2024-01-31. -/
def c8endFull : Nat := epochMs 2024 1 31 23 59 59 999

/-- The filters of the claim: startDate 2024-01-01, endDate
2024-01-31. -/
def c8filters : ThoughtFilters :=
  { startDate := some c8start, endDate := some c8endParsed }

/-- The filters of the claim extended with includeRead set to false. -/
def c8filtersUnread : ThoughtFilters :=
  { c8filters with includeRead := some false }

/-- Pushing the parsed end date to the end of its day lands exactly on
23:59:59.999 of 2024-01-31. -/
theorem c8_endOfDay : endOfDayMs c8endParsed = c8endFull := by decide

/-- The author join keeps exactly the thoughts whose author resolves,
in order. -/
theorem attachAuthors_map_thought (st : StorageState) (l : List Thought) :
    (attachAuthors st l).map (fun r => r.thought) =
      l.filter (fun t => (mapGet st.users t.authorId).isSome) := by
  induction l with
  | nil => rfl
  | cons t ts ih =>
    cases hu : mapGet st.users t.authorId with
    | none => simp [attachAuthors, hu, ih]
    | some a => simp [attachAuthors, hu, ih]

/-- The thoughts returned by getThoughtsByClinic are a permutation of
the filter pipeline output restricted to resolvable authors. -/
theorem getThoughts_map_perm (st : StorageState) (cid : Nat) (incl : Bool)
    (fs : ThoughtFilters) :
    List.Perm ((getThoughtsByClinic st cid incl (some fs)).map (fun r => r.thought))
      ((applyFilters fs (((mapValues st.thoughts).filter
          (fun t => t.clinicId == cid)).filter
          (fun t => incl || !t.isDeleted))).filter
        (fun t => (mapGet st.users t.authorId).isSome)) := by
  have hperm := List.perm_insertionSort
    (fun a b : ThoughtWithAuthor => b.thought.createdAt ≤ a.thought.createdAt)
    (attachAuthors st (applyFilters fs (((mapValues st.thoughts).filter
      (fun t => t.clinicId == cid)).filter (fun t => incl || !t.isDeleted))))
  have hmapped := hperm.map (fun r => r.thought)
  rw [attachAuthors_map_thought] at hmapped
  exact hmapped

/-- C8 amended: with startDate 2024-01-01 and endDate 2024-01-31 the
result is exactly (as a permutation) the set of the clinic thoughts
that are not deleted, have a resolvable author and were created between
2024-01-01T00:00:00 and 2024-01-31T23:59:59.999 inclusive; the result
is sorted by createdAt descending; adding includeRead false further
drops every read thought. -/
theorem c8_date_filter_amended (st : StorageState) (cid : Nat) :
    List.Perm ((getThoughtsByClinic st cid false (some c8filters)).map (fun r => r.thought))
      ((mapValues st.thoughts).filter (fun t => t.clinicId == cid && !t.isDeleted && decide (c8start ≤ t.createdAt) && decide (t.createdAt ≤ c8endFull) && (mapGet st.users t.authorId).isSome)) ∧
    List.Pairwise (fun a b => b.thought.createdAt ≤ a.thought.createdAt)
      (getThoughtsByClinic st cid false (some c8filters)) ∧
    List.Perm ((getThoughtsByClinic st cid false (some c8filtersUnread)).map (fun r => r.thought))
      ((mapValues st.thoughts).filter (fun t => t.clinicId == cid && !t.isDeleted && decide (c8start ≤ t.createdAt) && decide (t.createdAt ≤ c8endFull) && !t.isRead && (mapGet st.users t.authorId).isSome)) := by
  refine ⟨?_, ?_, ?_⟩
  · have h := getThoughts_map_perm st cid false c8filters
    have heq : (applyFilters c8filters (((mapValues st.thoughts).filter
          (fun t => t.clinicId == cid)).filter
          (fun t => false || !t.isDeleted))).filter
        (fun t => (mapGet st.users t.authorId).isSome) =
        (mapValues st.thoughts).filter (fun t => t.clinicId == cid && !t.isDeleted && decide (c8start ≤ t.createdAt) && decide (t.createdAt ≤ c8endFull) && (mapGet st.users t.authorId).isSome) := by
      simp only [applyFilters, c8filters, Bool.false_or, c8_endOfDay,
        List.filter_filter]
      apply List.filter_congr
      intro t ht
      generalize (t.clinicId == cid) = b1
      generalize t.isDeleted = b2
      generalize (decide (c8start ≤ t.createdAt)) = b3
      generalize (decide (t.createdAt ≤ c8endFull)) = b4
      generalize (mapGet st.users t.authorId).isSome = b5
      cases b1 <;> cases b2 <;> cases b3 <;> cases b4 <;> cases b5 <;> rfl
    exact heq ▸ h
  · haveI : IsTotal ThoughtWithAuthor
        (fun a b => b.thought.createdAt ≤ a.thought.createdAt) :=
      ⟨fun a b => le_total b.thought.createdAt a.thought.createdAt⟩
    haveI : IsTrans ThoughtWithAuthor
        (fun a b => b.thought.createdAt ≤ a.thought.createdAt) :=
      ⟨fun a b c h1 h2 => le_trans h2 h1⟩
    exact List.sorted_insertionSort
      (fun a b : ThoughtWithAuthor => b.thought.createdAt ≤ a.thought.createdAt) _
  · have h := getThoughts_map_perm st cid false c8filtersUnread
    have heq : (applyFilters c8filtersUnread (((mapValues st.thoughts).filter
          (fun t => t.clinicId == cid)).filter
          (fun t => false || !t.isDeleted))).filter
        (fun t => (mapGet st.users t.authorId).isSome) =
        (mapValues st.thoughts).filter (fun t => t.clinicId == cid && !t.isDeleted && decide (c8start ≤ t.createdAt) && decide (t.createdAt ≤ c8endFull) && !t.isRead && (mapGet st.users t.authorId).isSome) := by
      simp only [applyFilters, c8filtersUnread, c8filters, Bool.false_or,
        c8_endOfDay, List.filter_filter]
      apply List.filter_congr
      intro t ht
      generalize (t.clinicId == cid) = b1
      generalize t.isDeleted = b2
      generalize (decide (c8start ≤ t.createdAt)) = b3
      generalize (decide (t.createdAt ≤ c8endFull)) = b4
      generalize t.isRead = b6
      generalize (mapGet st.users t.authorId).isSome = b5
      cases b1 <;> cases b2 <;> cases b3 <;> cases b4 <;> cases b5 <;> cases b6 <;> rfl
    exact heq ▸ h

/-- A state holding one undeleted thought of clinic 1 created on
2024-01-15 whose author id 99 resolves to no user. -/
def c8cexstate : StorageState :=
  (createThought (epochMs 2024 1 15 0 0 0 0) emptyStorage
    { clinicId := 1, title := "a", content := "b", authorId := 99 } 99).2

/-- C8 counterexample: the clinic has a non-deleted thought inside the
date range, yet the filtered query returns nothing, because the author
join silently drops thoughts whose author cannot be resolved; so the
result is not exactly the set of in-range non-deleted clinic
thoughts. -/
theorem c8_counterexample :
    getThoughtsByClinic c8cexstate 1 false (some c8filters) = [] ∧
    (mapValues c8cexstate.thoughts).filter
      (fun t => t.clinicId == 1 && !t.isDeleted && decide (c8start ≤ t.createdAt) && decide (t.createdAt ≤ c8endFull)) ≠ [] := by
  constructor
  · decide
  · decide


/-! Claim C6: editCount tracks the number of edited history entries. -/

/-- One call to a thought operation of the storage interface. -/
inductive ThoughtOp where
  | create (now : Nat) (it : InsertThought) (userId : Nat)
  | update (now : Nat) (id : Nat) (updates : ThoughtUpdates) (userId : Nat)
  | delete (now : Nat) (id : Nat) (userId : Nat)
  | markRead (now : Nat) (id : Nat)
deriving DecidableEq

/-- The state transition of one thought operation. -/
def applyThoughtOp (st : StorageState) : ThoughtOp → StorageState
  | .create now it userId => (createThought now st it userId).2
  | .update now id u userId => (updateThought now st id u userId).2
  | .delete now id userId => (deleteThought now st id userId).2
  | .markRead now id => (markThoughtAsRead now st id).2

/-- The state after a finite sequence of thought operations. -/
def applyThoughtOps (st : StorageState) (ops : List ThoughtOp) : StorageState :=
  ops.foldl applyThoughtOp st

/-- Number of stored history entries of a thought whose changeType is
edited. -/
def editedEntryCount (st : StorageState) (tid : Nat) : Nat :=
  ((mapValues st.thoughtHistory).filter
    (fun e => e.thoughtId == tid && e.changeType == "edited")).length

/-- The inductive invariant tying editCount to the history log: the ids
in the two maps stay below their counters (so fresh inserts append),
history entries only reference already allocated thought ids, and every
stored thought has editCount equal to its number of edited entries. -/
def ThoughtConsistent (st : StorageState) : Prop :=
  (∀ q ∈ st.thoughts, q.1 < st.currentThoughtId) ∧
  (∀ q ∈ st.thoughtHistory, q.1 < st.currentHistoryId) ∧
  (∀ q ∈ st.thoughtHistory, (q.2).thoughtId < st.currentThoughtId) ∧
  (∀ tid t, mapGet st.thoughts tid = some t →
     t.editCount = editedEntryCount st tid)

theorem mapGet_mem {α : Type} (m : List (Nat × α)) (k : Nat) (v : α)
    (h : mapGet m k = some v) : (k, v) ∈ m := by
  induction m with
  | nil => simp [mapGet] at h
  | cons p rest ih =>
    by_cases hp : p.1 = k
    · simp only [mapGet, hp, if_pos, Option.some.injEq] at h
      subst h
      cases p with
      | mk k1 v1 =>
        simp only at hp
        subst hp
        exact List.mem_cons_self _ _
    · simp only [mapGet, hp, ite_false, if_neg] at h
      exact List.mem_cons_of_mem _ (ih h)

theorem editedEntryCount_eq_zero (st : StorageState) (tid : Nat)
    (h : ∀ q ∈ st.thoughtHistory, (q.2).thoughtId ≠ tid) :
    editedEntryCount st tid = 0 := by
  unfold editedEntryCount
  rw [List.length_eq_zero, List.filter_eq_nil_iff]
  intro e he
  simp only [mapValues, List.mem_map] at he
  obtain ⟨q, hq, rfl⟩ := he
  simp [h q hq]

theorem consistent_createThought (now : Nat) (st : StorageState)
    (it : InsertThought) (userId : Nat) (h : ThoughtConsistent st) :
    ThoughtConsistent (createThought now st it userId).2 := by
  obtain ⟨hT, hH, hHT, hEC⟩ := h
  have hfreshH : ∀ q ∈ st.thoughtHistory, q.1 ≠ st.currentHistoryId :=
    fun q hq => Nat.ne_of_lt (hH q hq)
  simp only [createThought, createHistoryEntry]
  refine ⟨?_, ?_, ?_, ?_⟩
  · intro q hq
    rcases mem_mapSet _ _ _ _ hq with h1 | h1
    · exact Nat.lt_succ_of_lt (hT q h1)
    · subst h1
      exact Nat.lt_succ_self _
  · intro q hq
    rcases mem_mapSet _ _ _ _ hq with h1 | h1
    · exact Nat.lt_succ_of_lt (hH q h1)
    · subst h1
      exact Nat.lt_succ_self _
  · intro q hq
    rcases mem_mapSet _ _ _ _ hq with h1 | h1
    · exact Nat.lt_succ_of_lt (hHT q h1)
    · subst h1
      exact Nat.lt_succ_self _
  · intro tid t hm
    by_cases hid : st.currentThoughtId = tid
    · subst hid
      rw [mapGet_mapSet_self] at hm
      cases hm
      have hz : editedEntryCount st st.currentThoughtId = 0 :=
        editedEntryCount_eq_zero st st.currentThoughtId
          (fun q hq => Nat.ne_of_lt (hHT q hq))
      simp only [editedEntryCount, mapValues] at hz ⊢
      rw [mapSet_of_fresh _ _ _ hfreshH]
      simp [List.filter_append, hz]
    · rw [mapGet_mapSet_ne _ _ _ _ (fun hh => hid hh.symm)] at hm
      have hc := hEC tid t hm
      simp only [editedEntryCount, mapValues] at hc ⊢
      rw [mapSet_of_fresh _ _ _ hfreshH]
      simp [List.filter_append, hc, hid]

theorem consistent_updateThought (now : Nat) (st : StorageState) (id : Nat)
    (u : ThoughtUpdates) (userId : Nat) (h : ThoughtConsistent st) :
    ThoughtConsistent (updateThought now st id u userId).2 := by
  obtain ⟨hT, hH, hHT, hEC⟩ := h
  cases hm : mapGet st.thoughts id with
  | none =>
    simp only [updateThought, hm]
    exact ⟨hT, hH, hHT, hEC⟩
  | some thought =>
    have hidlt : id < st.currentThoughtId := hT _ (mapGet_mem _ _ _ hm)
    have hfreshH : ∀ q ∈ st.thoughtHistory, q.1 ≠ st.currentHistoryId :=
      fun q hq => Nat.ne_of_lt (hH q hq)
    simp only [updateThought, hm, createHistoryEntry]
    refine ⟨?_, ?_, ?_, ?_⟩
    · intro q hq
      rcases mem_mapSet _ _ _ _ hq with h1 | h1
      · exact hT q h1
      · subst h1
        exact hidlt
    · intro q hq
      rcases mem_mapSet _ _ _ _ hq with h1 | h1
      · exact Nat.lt_succ_of_lt (hH q h1)
      · subst h1
        exact Nat.lt_succ_self _
    · intro q hq
      rcases mem_mapSet _ _ _ _ hq with h1 | h1
      · exact hHT q h1
      · subst h1
        exact hidlt
    · intro tid t hm2
      by_cases hid : id = tid
      · subst hid
        rw [mapGet_mapSet_self] at hm2
        cases hm2
        have hc := hEC id thought hm
        simp only [editedEntryCount, mapValues] at hc ⊢
        rw [mapSet_of_fresh _ _ _ hfreshH]
        simp [List.filter_append, hc]
      · rw [mapGet_mapSet_ne _ _ _ _ (fun hh => hid hh.symm)] at hm2
        have hc := hEC tid t hm2
        simp only [editedEntryCount, mapValues] at hc ⊢
        rw [mapSet_of_fresh _ _ _ hfreshH]
        simp [List.filter_append, hc, hid]

theorem consistent_deleteThought (now : Nat) (st : StorageState) (id : Nat)
    (userId : Nat) (h : ThoughtConsistent st) :
    ThoughtConsistent (deleteThought now st id userId).2 := by
  obtain ⟨hT, hH, hHT, hEC⟩ := h
  cases hm : mapGet st.thoughts id with
  | none =>
    simp only [deleteThought, hm]
    exact ⟨hT, hH, hHT, hEC⟩
  | some thought =>
    have hidlt : id < st.currentThoughtId := hT _ (mapGet_mem _ _ _ hm)
    have hfreshH : ∀ q ∈ st.thoughtHistory, q.1 ≠ st.currentHistoryId :=
      fun q hq => Nat.ne_of_lt (hH q hq)
    simp only [deleteThought, hm, createHistoryEntry]
    refine ⟨?_, ?_, ?_, ?_⟩
    · intro q hq
      rcases mem_mapSet _ _ _ _ hq with h1 | h1
      · exact hT q h1
      · subst h1
        exact hidlt
    · intro q hq
      rcases mem_mapSet _ _ _ _ hq with h1 | h1
      · exact Nat.lt_succ_of_lt (hH q h1)
      · subst h1
        exact Nat.lt_succ_self _
    · intro q hq
      rcases mem_mapSet _ _ _ _ hq with h1 | h1
      · exact hHT q h1
      · subst h1
        exact hidlt
    · intro tid t hm2
      by_cases hid : id = tid
      · subst hid
        rw [mapGet_mapSet_self] at hm2
        cases hm2
        have hc := hEC id thought hm
        simp only [editedEntryCount, mapValues] at hc ⊢
        rw [mapSet_of_fresh _ _ _ hfreshH]
        simp [List.filter_append, hc]
      · rw [mapGet_mapSet_ne _ _ _ _ (fun hh => hid hh.symm)] at hm2
        have hc := hEC tid t hm2
        simp only [editedEntryCount, mapValues] at hc ⊢
        rw [mapSet_of_fresh _ _ _ hfreshH]
        simp [List.filter_append, hc, hid]

theorem consistent_markRead (now : Nat) (st : StorageState) (id : Nat)
    (h : ThoughtConsistent st) :
    ThoughtConsistent (markThoughtAsRead now st id).2 := by
  obtain ⟨hT, hH, hHT, hEC⟩ := h
  cases hm : mapGet st.thoughts id with
  | none =>
    simp only [markThoughtAsRead, hm]
    exact ⟨hT, hH, hHT, hEC⟩
  | some thought =>
    have hidlt : id < st.currentThoughtId := hT _ (mapGet_mem _ _ _ hm)
    simp only [markThoughtAsRead, hm]
    refine ⟨?_, hH, hHT, ?_⟩
    · intro q hq
      rcases mem_mapSet _ _ _ _ hq with h1 | h1
      · exact hT q h1
      · subst h1
        exact hidlt
    · intro tid t hm2
      by_cases hid : id = tid
      · subst hid
        rw [mapGet_mapSet_self] at hm2
        cases hm2
        exact hEC id thought hm
      · rw [mapGet_mapSet_ne _ _ _ _ (fun hh => hid hh.symm)] at hm2
        exact hEC tid t hm2

theorem consistent_applyThoughtOp (st : StorageState) (op : ThoughtOp)
    (h : ThoughtConsistent st) : ThoughtConsistent (applyThoughtOp st op) := by
  cases op with
  | create now it userId => exact consistent_createThought now st it userId h
  | update now id u userId => exact consistent_updateThought now st id u userId h
  | delete now id userId => exact consistent_deleteThought now st id userId h
  | markRead now id => exact consistent_markRead now st id h

theorem consistent_emptyStorage : ThoughtConsistent emptyStorage := by
  refine ⟨?_, ?_, ?_, ?_⟩ <;> simp [emptyStorage, mapGet]

theorem consistent_applyThoughtOps (st : StorageState) (ops : List ThoughtOp)
    (h : ThoughtConsistent st) :
    ThoughtConsistent (applyThoughtOps st ops) := by
  rw [applyThoughtOps]
  induction ops generalizing st with
  | nil => exact h
  | cons op rest ih => exact ih _ (consistent_applyThoughtOp st op h)

/-- C6: starting from the fresh store, after any finite sequence of
createThought, updateThought, deleteThought and markThoughtAsRead
calls, every stored thought has editCount equal to the number of its
history entries with changeType edited; moreover createThought always
returns a thought with editCount 0, and a successful updateThought
returns a thought whose editCount is the stored one plus one. -/
theorem c6_editCount_matches_history (ops : List ThoughtOp) (tid : Nat)
    (t : Thought) (nowC : Nat) (stC : StorageState) (itC : InsertThought)
    (uidC : Nat) (nowU : Nat) (stU : StorageState) (idU : Nat)
    (uU : ThoughtUpdates) (uidU : Nat)
    (h : mapGet (applyThoughtOps emptyStorage ops).thoughts tid = some t) :
    t.editCount = editedEntryCount (applyThoughtOps emptyStorage ops) tid ∧
    ((createThought nowC stC itC uidC).1).editCount = 0 ∧
    ((updateThought nowU stU idU uU uidU).1).map (fun r => r.editCount) =
      (mapGet stU.thoughts idU).map (fun r => r.editCount + 1) := by
  refine ⟨?_, rfl, ?_⟩
  · exact (consistent_applyThoughtOps emptyStorage ops
      consistent_emptyStorage).2.2.2 tid t h
  · cases hm : mapGet stU.thoughts idU <;> simp [updateThought, hm]

/-- A concrete operation sequence: one creation followed by two edits,
a read mark and a soft delete interleaved. -/
def c6ops : List ThoughtOp :=
  [ThoughtOp.create 5 { clinicId := 1, title := "a", content := "b", authorId := 1 } 1,
   ThoughtOp.update 6 1 { title := some "a2" } 2,
   ThoughtOp.markRead 7 1,
   ThoughtOp.delete 8 1 2,
   ThoughtOp.update 9 1 { content := some "b2" } 3]

/-- C6 witnessed at the concrete sequence c6ops: the surviving thought
has editCount 2 and exactly two edited history entries. -/
theorem c6_editCount_matches_history_witness :
    ((mapGet (applyThoughtOps emptyStorage c6ops).thoughts 1).getD someThought).editCount =
      editedEntryCount (applyThoughtOps emptyStorage c6ops) 1 ∧
    ((createThought 5 emptyStorage { clinicId := 1, title := "a", content := "b", authorId := 1 } 1).1).editCount = 0 ∧
    ((updateThought 6 (applyThoughtOps emptyStorage c6ops) 1 { title := some "x" } 2).1).map (fun r => r.editCount) =
      (mapGet (applyThoughtOps emptyStorage c6ops).thoughts 1).map (fun r => r.editCount + 1) :=
  c6_editCount_matches_history c6ops 1
    ((mapGet (applyThoughtOps emptyStorage c6ops).thoughts 1).getD someThought)
    5 emptyStorage { clinicId := 1, title := "a", content := "b", authorId := 1 } 1
    6 (applyThoughtOps emptyStorage c6ops) 1 { title := some "x" } 2
    (by decide)


end ThoughtsApp
